import Mathlib

/-!
Verification of the PINN diffusion teaching notebook (activity-2.ipynb).

The notebook is a linear script: analytical solution on a uniform mesh,
Latin Hypercube sampling of collocation points, a small MLP with Xavier
initialization, a physics-informed loss, a fixed-length Adam training loop,
and post-hoc relative L2 error evaluation.  Tensors are embedded as lists
(or index functions) of real numbers; the network forward pass, where it
must be differentiated, is embedded as a function together with its exact
derivatives, which is the semantics of torch.autograd on the reals.
-/

open Real

namespace PINNDiffusion

/- Real-valued embeddings of the notebook's floating-point numerics are
necessarily noncomputable in Lean; witnesses evaluate them symbolically. -/
noncomputable section RealEmbedding

/-! ## Tensors and the relative L2 error (cell 3 of the notebook) -/

/-- Elementwise difference of two tensors, embedding `u_num - u_ref`
on tensors of equal shape. -/
def tensor_sub (u v : List ℝ) : List ℝ := (u.zip v).map fun p => p.1 - p.2

/-- Embedding of `torch.norm(v, p=2)`: the square root of the sum of the
squared entries. -/
def torch_norm2 (v : List ℝ) : ℝ := Real.sqrt ((v.map fun a => a ^ 2).sum)

/-- Embedding of `relative_l2_error(u_num, u_ref)` from the notebook:
`torch.norm(u_num - u_ref, p=2) / torch.norm(u_ref, p=2)`. -/
def relative_l2_error (u_num u_ref : List ℝ) : ℝ :=
  torch_norm2 (tensor_sub u_num u_ref) / torch_norm2 u_ref

/-- The Euclidean norm as the specification words it: the square root of
the sum, over all positions of the vector, of the squared entry.  This is
written independently of the code's `torch.norm` embedding, as a
`Finset` sum over the positions. -/
def euclideanNorm (v : List ℝ) : ℝ :=
  Real.sqrt (∑ i : Fin v.length, (v.get i) ^ 2)

/-- Division as floating-point division behaves for finite operands:
a finite value is produced only when the divisor is nonzero (division by
zero yields `inf` or `nan`, which we embed as `none`).  Modelled from the
spec: the notebook relies on default torch float semantics here. -/
def floatDiv (a b : ℝ) : Option ℝ :=
  if b = 0 then none else some (a / b)

/-- `relative_l2_error` with the final division given float semantics:
`none` exactly when the divisor `torch.norm(u_ref)` vanishes. -/
def relative_l2_error_float (u_num u_ref : List ℝ) : Option ℝ :=
  floatDiv (torch_norm2 (tensor_sub u_num u_ref)) (torch_norm2 u_ref)

/-! ## Analytical solution on the uniform mesh (cell 5) -/

/-- `dom_samples = 100`, the number of samples in x and in t. -/
def dom_samples : ℕ := 100

/-- Embedding of `analytic_diffusion(x, t) = np.exp(-t) * np.sin(np.pi * x)`. -/
def analytic_diffusion (x t : ℝ) : ℝ := Real.exp (-t) * Real.sin (Real.pi * x)

/-- Embedding of `np.linspace(a, b, n)`: the i-th of n points placed with
constant step `(b - a) / (n - 1)` starting at `a`. -/
def linspace (a b : ℝ) (n : ℕ) (i : ℕ) : ℝ := a + (b - a) * i / ((n : ℝ) - 1)

/-- The spatial grid `x = np.linspace(-1, 1, dom_samples)`. -/
def xGrid (i : ℕ) : ℝ := linspace (-1) 1 dom_samples i

/-- The temporal grid `t = np.linspace(0, 2, dom_samples)`. -/
def tGrid (i : ℕ) : ℝ := linspace 0 2 dom_samples i

/-- First output of `np.meshgrid(x, t)` (default indexing): `X[i][j] = x[j]`. -/
def meshX (_i j : ℕ) : ℝ := xGrid j

/-- Second output of `np.meshgrid(x, t)`: `T[i][j] = t[i]`. -/
def meshT (i _j : ℕ) : ℝ := tGrid i

/-- The mesh of analytical values, `U = analytic_diffusion(X, T)` applied
elementwise. -/
def meshU (i j : ℕ) : ℝ := analytic_diffusion (meshX i j) (meshT i j)

/-! ## The physics-informed loss (markdown cell 12 and code cell 13)

The notebook's `PINN_diffusion_Loss` is distributed as a fill-in skeleton:
the function signature, the forward pass `u = forward_pass(domain)` and the
return statement `PDE_loss + IC_loss + BC1_loss + BC2_loss` are given, while
the derivative computations and the four loss terms are TODO comments.  The
bodies of those terms are modelled from the spec (the loss formulas displayed
in the preceding markdown cell).  Automatic differentiation is embedded by
carrying the network's exact partial derivatives alongside the forward pass:
`torch.autograd.grad` returns the exact derivative of the computational
graph, which for a smooth network is the mathematical derivative. -/

/-- A network forward pass `(t, x) ↦ u(t, x)` together with the derivative
functions that `torch.autograd` produces for it, and proofs that they are
the actual derivatives of the output with respect to the inputs. -/
structure ForwardPass where
  u : ℝ → ℝ → ℝ
  u_t : ℝ → ℝ → ℝ
  u_x : ℝ → ℝ → ℝ
  u_xx : ℝ → ℝ → ℝ
  deriv_t : ∀ t x, HasDerivAt (fun s => u s x) (u_t t x) t
  deriv_x : ∀ t x, HasDerivAt (fun y => u t y) (u_x t x) x
  deriv_xx : ∀ t x, HasDerivAt (fun y => u_x t y) (u_xx t x) x

/-- Embedding of `nn.MSELoss()` on equal-length tensors: the mean of the
squared entrywise differences. -/
def MSE_func (pred target : List ℝ) : ℝ :=
  (((pred.zip target).map fun p => (p.1 - p.2) ^ 2).sum) / (pred.length : ℝ)

/-- Modelled from the spec: the PDE residual
`f_pde(t,x) = du/dt - d2u/dx2 + e^(-t) (sin(pi x) - pi^2 sin(pi x))`
of markdown cell 12, with the derivatives obtained by automatic
differentiation of the network. -/
def f_pde (fp : ForwardPass) (t x : ℝ) : ℝ :=
  fp.u_t t x - fp.u_xx t x +
    Real.exp (-t) * (Real.sin (Real.pi * x) - Real.pi ^ 2 * Real.sin (Real.pi * x))

/-- Modelled from the spec: the PDE-residual loss term,
`lambda1 * MSE(f_pde(t_i, x_i), 0)` over the collocation points. -/
def PDE_loss (fp : ForwardPass) (x_ten t_ten : List ℝ) (lambda1 : ℝ) : ℝ :=
  lambda1 * MSE_func ((t_ten.zip x_ten).map fun p => f_pde fp p.1 p.2)
      (List.replicate t_ten.length 0)

/-- Modelled from the spec: the initial-condition loss term,
`lambda2 * MSE(u(0, x_i), sin(pi x_i))`. -/
def IC_loss (fp : ForwardPass) (x_ten : List ℝ) (lambda2 : ℝ) : ℝ :=
  lambda2 * MSE_func (x_ten.map fun x => fp.u 0 x)
      (x_ten.map fun x => Real.sin (Real.pi * x))

/-- Modelled from the spec: the boundary-condition loss at `x = -1`,
`lambda3 * MSE(u(t_i, -1), 0)`. -/
def BC1_loss (fp : ForwardPass) (t_ten : List ℝ) (lambda3 : ℝ) : ℝ :=
  lambda3 * MSE_func (t_ten.map fun t => fp.u t (-1)) (List.replicate t_ten.length 0)

/-- Modelled from the spec: the boundary-condition loss at `x = 1`,
`lambda3 * MSE(u(t_i, 1), 0)`. -/
def BC2_loss (fp : ForwardPass) (t_ten : List ℝ) (lambda3 : ℝ) : ℝ :=
  lambda3 * MSE_func (t_ten.map fun t => fp.u t 1) (List.replicate t_ten.length 0)

/-- Embedding of `PINN_diffusion_Loss(forward_pass, x_ten, t_ten,
lambda1, lambda2, lambda3)`: the skeleton's literal return statement
`PDE_loss + IC_loss + BC1_loss + BC2_loss`, with the four terms modelled
from the spec formulas. -/
def PINN_diffusion_Loss (fp : ForwardPass) (x_ten t_ten : List ℝ)
    (lambda1 lambda2 lambda3 : ℝ) : ℝ :=
  PDE_loss fp x_ten t_ten lambda1 + IC_loss fp x_ten lambda2 +
    BC1_loss fp t_ten lambda3 + BC2_loss fp t_ten lambda3

end RealEmbedding

/-! ## Latin Hypercube sampling of collocation points (cell 7)

`qmc.LatinHypercube(d=2).random(n=100)` returns 100 points in `[0,1)^2`
such that, in each of the two coordinates, each of the 100 equal strata
`[k/100, (k+1)/100)` contains exactly one point; this is the documented
contract of the scipy sampler, embedded here as a predicate.  Samples are
carried over `ℚ` so that concrete instances can be checked by evaluation. -/

/-- The scipy Latin Hypercube contract for `n` points in `d` dimensions:
for every coordinate there is a permutation assigning to each point the
stratum it falls into, strata being the `n` equal subintervals of `[0,1)`. -/
def isLatinHypercube (n d : ℕ) (s : Fin n → Fin d → ℚ) : Prop :=
  ∀ dim : Fin d, ∃ σ : Equiv.Perm (Fin n),
    ∀ k : Fin n, ((σ k : ℕ) : ℚ) / n ≤ s k dim ∧ s k dim < (((σ k : ℕ) : ℚ) + 1) / n

/-- Embedding of `qmc.scale(sample, l_bounds, u_bounds)`: the affine map
sending coordinate `dim` of each unit-cube point to
`l_bounds[dim] + (u_bounds[dim] - l_bounds[dim]) * s`. -/
def qmc_scale {n d : ℕ} (l_bounds u_bounds : Fin d → ℚ) (s : Fin n → Fin d → ℚ) :
    Fin n → Fin d → ℚ :=
  fun k dim => l_bounds dim + (u_bounds dim - l_bounds dim) * s k dim

/-- `l_bounds = [-1, 0]` from the notebook. -/
def l_bounds : Fin 2 → ℚ := ![-1, 0]

/-- `u_bounds = [1, 2]` from the notebook. -/
def u_bounds : Fin 2 → ℚ := ![1, 2]

/-- Embedding of `domain_xt = qmc.scale(sample, l_bounds, u_bounds)` as a
function of the raw unit-cube sample. -/
def domain_xt {n : ℕ} (s : Fin n → Fin 2 → ℚ) : Fin n → Fin 2 → ℚ :=
  qmc_scale l_bounds u_bounds s

/-! ## The neural network (cells 9-11)

`NeuralNetwork.__init__` builds `nn.Sequential` from the layer-width list
and then calls `init_params`, which applies Xavier normal initialization to
the weight of every `nn.Linear` submodule.  The module list and the
initialization state of each parameter are embedded symbolically. -/

/-- Initialization state of a parameter tensor: the PyTorch default from
`nn.Linear.__init__`, or re-initialized by `nn.init.xavier_normal_`. -/
inductive WInit where
  | dflt
  | xavierNormal
  deriving DecidableEq, Repr

/-- A module of the `nn.Sequential` container: an affine `nn.Linear` layer
with its weight and bias initialization states, or a `nn.Tanh` activation. -/
inductive NNModule where
  | linear (inFeatures outFeatures : ℕ) (weight bias : WInit)
  | tanh
  deriving DecidableEq, Repr

/-- `nn.Linear(i, o)` as freshly constructed: both parameters carry the
default initialization. -/
def nnLinear (i o : ℕ) : NNModule := .linear i o .dflt .dflt

/-- `hidden_layers = [2, 10, 10, 10, 1]` from cell 9. -/
def hidden_layers : List ℕ := [2, 10, 10, 10, 1]

/-- The layer-construction loop of `NeuralNetwork.__init__`: for each
`i in range(len(hlayers[:-2]))` append `nn.Linear(hlayers[i], hlayers[i+1])`
and `nn.Tanh()`, then append the final `nn.Linear(hlayers[-2], hlayers[-1])`. -/
def mkLayerList (hlayers : List ℕ) : List NNModule :=
  (((List.range (hlayers.length - 2)).map fun i =>
      [nnLinear (hlayers.getD i 0) (hlayers.getD (i + 1) 0), NNModule.tanh]).flatten)
    ++ [nnLinear (hlayers.getD (hlayers.length - 2) 0)
          (hlayers.getD (hlayers.length - 1) 0)]

/-- The `init_normal` closure inside `init_params`: if the module is an
`nn.Linear`, re-initialize its weight with `nn.init.xavier_normal_`;
otherwise leave it untouched. -/
def init_normal : NNModule → NNModule
  | .linear i o _ b => .linear i o .xavierNormal b
  | .tanh => .tanh

/-- `init_params`: `self.apply(init_normal)` visits every submodule of the
sequential container. -/
def init_params (ms : List NNModule) : List NNModule := ms.map init_normal

/-- `NeuralNetwork(hlayers)`: build the layer list, then call
`init_params` from the constructor. -/
def NeuralNetwork (hlayers : List ℕ) : List NNModule :=
  init_params (mkLayerList hlayers)

/-- Whether a module is an `nn.Linear`. -/
def NNModule.isLinear : NNModule → Bool
  | .linear _ _ _ _ => true
  | .tanh => false

/-- The weight initialization state of a module, when it has a weight. -/
def NNModule.weightInit : NNModule → Option WInit
  | .linear _ _ w _ => some w
  | .tanh => none

/-- The bias initialization state of a module, when it has a bias. -/
def NNModule.biasInit : NNModule → Option WInit
  | .linear _ _ _ b => some b
  | .tanh => none

/-- The `(in, out)` feature shape of a module, when it is affine. -/
def NNModule.shape : NNModule → Option (ℕ × ℕ)
  | .linear i o _ _ => some (i, o)
  | .tanh => none

/-- Shape semantics of one module applied to a batch of feature dimension
`dim`: `nn.Linear(i, o)` accepts dimension `i` and produces `o`; `nn.Tanh`
is elementwise. -/
def moduleOutDim : NNModule → ℕ → Option ℕ
  | .linear i o _ _, dim => if dim = i then some o else none
  | .tanh, dim => some dim

/-- Shape semantics of the sequential container. -/
def networkOutDim : List NNModule → ℕ → Option ℕ
  | [], dim => some dim
  | m :: ms, dim => (moduleOutDim m dim).bind (networkOutDim ms)

/-! ## The training loop (cells 9 and 13) -/

/-- `training_iter = 20000` from cell 9. -/
def training_iter : ℕ := 20000

/-- The training loop `for i in range(n)`, over an abstract optimizer
state: each iteration computes the loss on the current state, appends
exactly one value to `loss_values`, and advances the state by
backpropagation plus `optimizer.step()` (abstracted as `stepFn`).  No
branch leaves the loop early and nothing else touches `loss_values`. -/
def trainLoop {S : Type} (stepFn : S → S) (lossFn : S → ℝ) :
    ℕ → S × List ℝ → S × List ℝ
  | 0, st => st
  | n + 1, (s, ls) => trainLoop stepFn lossFn n (stepFn s, ls ++ [lossFn s])

/-! ## Exception propagation (whole notebook)

The notebook contains no `try`/`except` and defines no error type: every
cell is a straight-line sequence of statements, so an exception raised by
any library call aborts the program.  This is embedded by composing the
four phases in the `Except` monad with `bind` only: no combinator in the
program inspects or recovers from the `error` case. -/

/-- The notebook as a straight-line pipeline: sampling, loss evaluation
inside training, training itself, and post-hoc evaluation, composed with
`bind` and nothing else. -/
def runPipeline {E A B C D : Type} (sampling : Except E A)
    (lossEval : A → Except E B) (training : B → Except E C)
    (postEval : C → Except E D) : Except E D :=
  sampling >>= lossEval >>= training >>= postEval

/-! ## Theorems -/

/-- The entrywise sum of squares of a list equals the `Finset` sum of
squares over its positions. -/
lemma sum_map_sq_eq_sum_fin (v : List ℝ) :
    (v.map fun a => a ^ 2).sum = ∑ i : Fin v.length, (v.get i) ^ 2 := by
  simpa using (Fin.sum_univ_get' v fun a => a ^ 2).symm

/-- The code's `torch.norm(·, p=2)` agrees with the Euclidean norm as the
specification describes it. -/
lemma torch_norm2_eq_euclidean (v : List ℝ) : torch_norm2 v = euclideanNorm v := by
  unfold torch_norm2 euclideanNorm
  rw [sum_map_sq_eq_sum_fin]

/-- Claim C5: for every pair of tensors `u_num` and `u_ref`,
`relative_l2_error(u_num, u_ref)` returns the Euclidean (L2) norm of the
difference `u_num - u_ref` divided by the Euclidean norm of the reference
`u_ref`. -/
theorem relative_l2_error_is_euclidean_quotient (u_num u_ref : List ℝ) :
    relative_l2_error u_num u_ref =
      euclideanNorm (tensor_sub u_num u_ref) / euclideanNorm u_ref := by
  unfold relative_l2_error
  rw [torch_norm2_eq_euclidean, torch_norm2_eq_euclidean]

/-- Claim C9: `relative_l2_error` divides by the L2 norm of `u_ref` without
any guard; on an all-zero reference tensor the divisor is exactly `0`, and
under float division semantics the result is not a finite number. -/
theorem relative_l2_error_zero_ref (n : ℕ) (u_num : List ℝ) :
    torch_norm2 (List.replicate n 0) = 0 ∧
      relative_l2_error_float u_num (List.replicate n 0) = none := by
  have hz : torch_norm2 (List.replicate n 0) = 0 := by
    unfold torch_norm2
    rw [List.map_replicate]
    norm_num
  refine ⟨hz, ?_⟩
  unfold relative_l2_error_float floatDiv
  rw [hz]
  simp

/-- Claim C2: `analytic_diffusion(x, t)` returns `e^(-t) * sin(pi x)`; the
100 spatial points are equally spaced over `[-1, 1]` and the 100 temporal
points are equally spaced over `[0, 2]` (first point, last point, constant
consecutive step); and the mesh value `U[i][j]` is `analytic_diffusion`
evaluated at the j-th spatial and i-th temporal point. -/
theorem analytic_mesh_spec :
    (∀ x t : ℝ, analytic_diffusion x t = Real.exp (-t) * Real.sin (Real.pi * x))
    ∧ xGrid 0 = -1 ∧ xGrid (dom_samples - 1) = 1
    ∧ (∀ i : ℕ, xGrid (i + 1) - xGrid i = 2 / 99)
    ∧ tGrid 0 = 0 ∧ tGrid (dom_samples - 1) = 2
    ∧ (∀ i : ℕ, tGrid (i + 1) - tGrid i = 2 / 99)
    ∧ (∀ i j : ℕ, meshU i j = analytic_diffusion (xGrid j) (tGrid i)) := by
  refine ⟨fun x t => rfl, ?_, ?_, ?_, ?_, ?_, ?_, fun i j => rfl⟩
  · unfold xGrid linspace dom_samples; norm_num
  · unfold xGrid linspace dom_samples; norm_num
  · intro i
    unfold xGrid linspace dom_samples
    push_cast
    ring
  · unfold tGrid linspace dom_samples; norm_num
  · unfold tGrid linspace dom_samples; norm_num
  · intro i
    unfold tGrid linspace dom_samples
    push_cast
    ring

/-- Claim C4: for `hidden_layers = [2, 10, 10, 10, 1]` the constructed
network is exactly the module sequence Linear(2,10), Tanh, Linear(10,10),
Tanh, Linear(10,10), Tanh, Linear(10,1); it contains exactly 4 Linear
layers with a Tanh after each except the last; it maps a 2-dimensional
input to a 1-dimensional output; and every Linear layer's weight carries
the Xavier normal initialization from construction time. -/
theorem neural_network_structure :
    NeuralNetwork hidden_layers =
      [.linear 2 10 .xavierNormal .dflt, .tanh,
       .linear 10 10 .xavierNormal .dflt, .tanh,
       .linear 10 10 .xavierNormal .dflt, .tanh,
       .linear 10 1 .xavierNormal .dflt]
    ∧ ((NeuralNetwork hidden_layers).countP fun m => m.isLinear) = 4
    ∧ networkOutDim (NeuralNetwork hidden_layers) 2 = some 1
    ∧ ((NeuralNetwork hidden_layers).all fun m =>
        !m.isLinear || m.weightInit == some .xavierNormal) = true := by
  decide

/-- Number of loss values recorded by `n` iterations of the training loop:
each iteration appends exactly one entry. -/
lemma trainLoop_length {S : Type} (stepFn : S → S) (lossFn : S → ℝ) :
    ∀ (n : ℕ) (s : S) (ls : List ℝ),
      ((trainLoop stepFn lossFn n (s, ls)).2).length = ls.length + n := by
  intro n
  induction n with
  | zero => intro s ls; simp [trainLoop]
  | succ m ih =>
      intro s ls
      rw [trainLoop, ih]
      simp
      omega

/-- Claim C6: the training loop runs exactly `training_iter = 20000`
iterations and terminates, appending exactly one loss value per iteration,
so `loss_values` has exactly 20000 entries at the end; this holds for every
optimizer step function and every loss function, i.e. no branching or
feedback alters the iteration count. -/
theorem training_loop_runs_20000 {S : Type} (stepFn : S → S) (lossFn : S → ℝ)
    (s : S) :
    ((trainLoop stepFn lossFn training_iter (s, [])).2).length = 20000
    ∧ ∀ (n : ℕ) (ls : List ℝ),
        ((trainLoop stepFn lossFn n (s, ls)).2).length = ls.length + n := by
  constructor
  · rw [trainLoop_length]
    rfl
  · intro n ls
    exact trainLoop_length stepFn lossFn n s ls

/-- Claim C8: the notebook's phases are composed sequentially with no
exception handler: an error raised in any phase is returned unchanged as
the result of the whole pipeline, and only when every phase succeeds does
the pipeline produce a success value. -/
theorem pipeline_propagates_errors {E A B C D : Type} (e : E) (a : A) (b : B)
    (c : C) (d : D) (lossEval : A → Except E B) (training : B → Except E C)
    (postEval : C → Except E D) :
    runPipeline (Except.error e) lossEval training postEval = Except.error e
    ∧ runPipeline (Except.ok a) (fun _ => (Except.error e : Except E B)) training
        postEval = Except.error e
    ∧ runPipeline (Except.ok a) (fun _ => (Except.ok b : Except E B))
        (fun _ => (Except.error e : Except E C)) postEval = Except.error e
    ∧ runPipeline (Except.ok a) (fun _ => (Except.ok b : Except E B))
        (fun _ => (Except.ok c : Except E C))
        (fun _ => (Except.error e : Except E D)) = Except.error e
    ∧ runPipeline (Except.ok a) (fun _ => (Except.ok b : Except E B))
        (fun _ => (Except.ok c : Except E C))
        (fun _ => (Except.ok d : Except E D)) = Except.ok d := by
  refine ⟨rfl, rfl, rfl, rfl, rfl⟩

/-- Claim C10: `init_params` re-initializes only the weights: it preserves
every module's bias initialization state and feature shape, and any module
that is not a Linear layer is left completely unchanged at its position. -/
theorem init_params_frame (ms : List NNModule) :
    ((init_params ms).map NNModule.biasInit = ms.map NNModule.biasInit)
    ∧ ((init_params ms).map NNModule.shape = ms.map NNModule.shape)
    ∧ (∀ i : ℕ, (ms.getD i .tanh).isLinear = false →
        (init_params ms).getD i .tanh = ms.getD i .tanh) := by
  refine ⟨?_, ?_, ?_⟩
  · unfold init_params
    rw [List.map_map]
    apply List.map_congr_left
    intro m _
    cases m <;> rfl
  · unfold init_params
    rw [List.map_map]
    apply List.map_congr_left
    intro m _
    cases m <;> rfl
  · intro i
    induction ms generalizing i with
    | nil => intro _; rfl
    | cons m ms ih =>
        cases i with
        | zero =>
            intro hm
            cases m with
            | linear a b w bi => simp [NNModule.isLinear] at hm
            | tanh => rfl
        | succ j =>
            intro hm
            exact ih j hm

/-- Witness for Claim C10 at a concrete module list: the frame property of
`init_params` holds on `[Linear(2,10), Tanh]` at position 1. -/
theorem init_params_frame_witness :
    ([nnLinear 2 10, NNModule.tanh].getD 1 .tanh).isLinear = false ∧
      (init_params [nnLinear 2 10, NNModule.tanh]).getD 1 .tanh =
        [nnLinear 2 10, NNModule.tanh].getD 1 .tanh :=
  ⟨by decide, (init_params_frame [nnLinear 2 10, NNModule.tanh]).2.2 1 (by decide)⟩

/-- Zipping against an all-zero target of sufficient length and squaring
the differences is squaring the entries. -/
lemma zip_replicate_zero (l : List ℝ) :
    ∀ n, l.length ≤ n →
      (l.zip (List.replicate n (0 : ℝ))).map (fun p => (p.1 - p.2) ^ 2) =
        l.map fun a => a ^ 2 := by
  induction l with
  | nil => intro n _; simp
  | cons a l ih =>
      intro n hn
      cases n with
      | zero => simp at hn
      | succ m =>
          rw [List.replicate_succ]
          simp only [List.zip_cons_cons, List.map_cons]
          rw [ih m (by simpa using hn)]
          norm_num

/-- `nn.MSELoss` against an all-zero target is the mean square. -/
lemma MSE_replicate_zero (l : List ℝ) (n : ℕ) (hn : l.length ≤ n) :
    MSE_func l (List.replicate n 0) = (l.map fun a => a ^ 2).sum / (l.length : ℝ) := by
  unfold MSE_func
  rw [zip_replicate_zero l n hn]

/-- `nn.MSELoss` between two maps over the same index list is the mean of
the squared pointwise differences. -/
lemma MSE_map_map (l : List ℝ) (f g : ℝ → ℝ) :
    MSE_func (l.map f) (l.map g) =
      (l.map fun a => (f a - g a) ^ 2).sum / (l.length : ℝ) := by
  unfold MSE_func
  rw [List.zip_map', List.map_map, List.length_map]
  rfl

/-- Claim C1: for every forward pass and every pair of collocation tensors,
`PINN_diffusion_Loss` returns the sum of exactly four terms — the
PDE-residual loss, the initial-condition loss, and the boundary-condition
losses at `x = -1` and `x = 1` — each a weighted mean of squared residuals
over the collocation points; and the time derivative and second space
derivative entering the PDE residual are the automatic-differentiation
derivatives of the network output with respect to its inputs. -/
theorem PINN_loss_four_terms (fp : ForwardPass) (x_ten t_ten : List ℝ)
    (lambda1 lambda2 lambda3 : ℝ) (h : t_ten.length = x_ten.length) :
    (PINN_diffusion_Loss fp x_ten t_ten lambda1 lambda2 lambda3 =
        lambda1 / (x_ten.length : ℝ) *
          (((t_ten.zip x_ten).map fun p => f_pde fp p.1 p.2 ^ 2).sum)
      + lambda2 / (x_ten.length : ℝ) *
          ((x_ten.map fun x => (fp.u 0 x - Real.sin (Real.pi * x)) ^ 2).sum)
      + lambda3 / (x_ten.length : ℝ) * ((t_ten.map fun t => fp.u t (-1) ^ 2).sum)
      + lambda3 / (x_ten.length : ℝ) * ((t_ten.map fun t => fp.u t 1 ^ 2).sum))
    ∧ (∀ a b, HasDerivAt (fun s => fp.u s b) (fp.u_t a b) a)
    ∧ (∀ a b, HasDerivAt (fun y => fp.u_x a y) (fp.u_xx a b) b) := by
  refine ⟨?_, fp.deriv_t, fp.deriv_xx⟩
  have hpde : ((t_ten.zip x_ten).map fun p => f_pde fp p.1 p.2).length ≤
      t_ten.length := by
    rw [List.length_map, List.length_zip]
    exact min_le_left _ _
  have hbc : ∀ g : ℝ → ℝ, (t_ten.map g).length ≤ t_ten.length := by
    intro g; rw [List.length_map]
  unfold PINN_diffusion_Loss PDE_loss IC_loss BC1_loss BC2_loss
  rw [MSE_replicate_zero _ _ hpde, MSE_map_map,
    MSE_replicate_zero _ _ (hbc _), MSE_replicate_zero _ _ (hbc _)]
  simp only [List.map_map, List.length_map, List.length_zip, Function.comp_def, h,
    min_self]
  ring

/-- A concrete forward pass for evaluating the loss decomposition:
`u(t, x) = t * x`, whose autodiff derivatives are `u_t = x`, `u_x = t`
and `u_xx = 0`. -/
def fpBilinear : ForwardPass where
  u := fun t x => t * x
  u_t := fun _ x => x
  u_x := fun t _ => t
  u_xx := fun _ _ => 0
  deriv_t := fun t x => hasDerivAt_mul_const x
  deriv_x := fun t x => by simpa using (hasDerivAt_id x).const_mul t
  deriv_xx := fun t x => hasDerivAt_const x t

/-- Witness for Claim C1 at the forward pass `u(t,x) = t*x` with a single
collocation point `x = 1`, `t = 0` and unit weights. -/
theorem PINN_loss_four_terms_witness :
    ([(0 : ℝ)].length = [(1 : ℝ)].length) ∧
    ((PINN_diffusion_Loss fpBilinear [1] [0] 1 1 1 =
        1 / (([(1 : ℝ)].length : ℝ)) *
          ((([(0 : ℝ)].zip [(1 : ℝ)]).map fun p => f_pde fpBilinear p.1 p.2 ^ 2).sum)
      + 1 / (([(1 : ℝ)].length : ℝ)) *
          (([(1 : ℝ)].map fun x =>
              (fpBilinear.u 0 x - Real.sin (Real.pi * x)) ^ 2).sum)
      + 1 / (([(1 : ℝ)].length : ℝ)) *
          (([(0 : ℝ)].map fun t => fpBilinear.u t (-1) ^ 2).sum)
      + 1 / (([(1 : ℝ)].length : ℝ)) *
          (([(0 : ℝ)].map fun t => fpBilinear.u t 1 ^ 2).sum))
    ∧ (∀ a b, HasDerivAt (fun s => fpBilinear.u s b) (fpBilinear.u_t a b) a)
    ∧ (∀ a b, HasDerivAt (fun y => fpBilinear.u_x a y) (fpBilinear.u_xx a b) b)) :=
  ⟨rfl, PINN_loss_four_terms fpBilinear [1] [0] 1 1 1 rfl⟩

/-- Every coordinate of a Latin Hypercube sample lies in `[0, 1)`. -/
lemma lhs_unit_bounds {n d : ℕ} (s : Fin n → Fin d → ℚ)
    (h : isLatinHypercube n d s) (k : Fin n) (dim : Fin d) :
    0 ≤ s k dim ∧ s k dim < 1 := by
  obtain ⟨σ, hσ⟩ := h dim
  obtain ⟨h1, h2⟩ := hσ k
  have hnq : (0 : ℚ) < n := by exact_mod_cast k.pos
  constructor
  · exact le_trans (by positivity) h1
  · have h3 : (σ k : ℕ) + 1 ≤ n := (σ k).isLt
    have h4 : (((σ k : ℕ) : ℚ) + 1) / n ≤ 1 := by
      rw [div_le_one hnq]
      exact_mod_cast h3
    exact lt_of_lt_of_le h2 h4

/-- Two strata of `[0, 1)` that share a point are the same stratum. -/
lemma strata_unique {n : ℕ} (hn : (0 : ℚ) < n) {a b : ℕ} {x : ℚ}
    (ha1 : (a : ℚ) / n ≤ x) (ha2 : x < ((a : ℚ) + 1) / n)
    (hb1 : (b : ℚ) / n ≤ x) (hb2 : x < ((b : ℚ) + 1) / n) : a = b := by
  have h1 : (a : ℚ) / n < ((b : ℚ) + 1) / n := lt_of_le_of_lt ha1 hb2
  have h2 : (b : ℚ) / n < ((a : ℚ) + 1) / n := lt_of_le_of_lt hb1 ha2
  rw [div_lt_div_iff₀ hn hn] at h1 h2
  have h1' : a < b + 1 := by
    have := lt_of_mul_lt_mul_right h1 (le_of_lt hn)
    exact_mod_cast this
  have h2' : b < a + 1 := by
    have := lt_of_mul_lt_mul_right h2 (le_of_lt hn)
    exact_mod_cast this
  omega

/-- The stratification property on the unit cube: each of the `n` strata
of each coordinate contains exactly one sample point. -/
lemma lhs_unit_strata {n d : ℕ} (s : Fin n → Fin d → ℚ)
    (h : isLatinHypercube n d s) (dim : Fin d) (j : Fin n) :
    ∃! k : Fin n,
      ((j : ℕ) : ℚ) / n ≤ s k dim ∧ s k dim < (((j : ℕ) : ℚ) + 1) / n := by
  obtain ⟨σ, hσ⟩ := h dim
  have hnq : (0 : ℚ) < n := by exact_mod_cast j.pos
  refine ⟨σ.symm j, ?_, ?_⟩
  · have := hσ (σ.symm j)
    rwa [Equiv.apply_symm_apply] at this
  · intro y hy
    have hyσ := hσ y
    have hval : ((σ y : Fin n) : ℕ) = (j : ℕ) :=
      strata_unique hnq hyσ.1 hyσ.2 hy.1 hy.2
    have hfin : σ y = j := Fin.ext hval
    rw [← hfin, Equiv.symm_apply_apply]

/-- The increasing affine scaling `x ↦ lo + w * x` preserves `≤`. -/
lemma scaled_le_iff (lo w : ℚ) (hw : 0 < w) (a x : ℚ) :
    lo + w * a ≤ lo + w * x ↔ a ≤ x := by
  constructor
  · intro h1
    have h2 : w * a ≤ w * x := by linarith
    exact le_of_mul_le_mul_left h2 hw
  · intro h1
    have h2 : w * a ≤ w * x := mul_le_mul_of_nonneg_left h1 (le_of_lt hw)
    linarith

/-- The increasing affine scaling `x ↦ lo + w * x` preserves `<`. -/
lemma scaled_lt_iff (lo w : ℚ) (hw : 0 < w) (a x : ℚ) :
    lo + w * x < lo + w * a ↔ x < a := by
  constructor
  · intro h1
    have h2 : w * x < w * a := by linarith
    exact lt_of_mul_lt_mul_left h2 (le_of_lt hw)
  · intro h1
    have h2 : w * x < w * a := mul_lt_mul_of_pos_left h1 hw
    linarith

/-- Membership in a stratum is preserved by the increasing affine scaling
`x ↦ lo + w * x`. -/
lemma scaled_mem_iff (lo w : ℚ) (hw : 0 < w) (N : ℚ) (j x : ℚ) :
    (lo + w * j / N ≤ lo + w * x ∧ lo + w * x < lo + w * (j + 1) / N) ↔
      (j / N ≤ x ∧ x < (j + 1) / N) := by
  rw [mul_div_assoc, mul_div_assoc]
  exact and_congr (scaled_le_iff lo w hw (j / N) x) (scaled_lt_iff lo w hw ((j + 1) / N) x)

/-- Claim C3: every scaled Latin Hypercube collocation point lies in the
domain (`-1 <= x <= 1`, `0 <= t <= 2`), and for each coordinate each of
the 100 equal-width strata of that coordinate's range contains exactly one
of the 100 sample points. -/
theorem lhs_collocation_points (s : Fin 100 → Fin 2 → ℚ)
    (h : isLatinHypercube 100 2 s) :
    (∀ k : Fin 100,
        (-1 ≤ domain_xt s k 0 ∧ domain_xt s k 0 ≤ 1) ∧
          (0 ≤ domain_xt s k 1 ∧ domain_xt s k 1 ≤ 2))
    ∧ (∀ (dim : Fin 2) (j : Fin 100), ∃! k : Fin 100,
        l_bounds dim + (u_bounds dim - l_bounds dim) * ((j : ℕ) : ℚ) / 100 ≤
            domain_xt s k dim ∧
          domain_xt s k dim <
            l_bounds dim + (u_bounds dim - l_bounds dim) * (((j : ℕ) : ℚ) + 1) / 100) := by
  constructor
  · intro k
    have hb0 := lhs_unit_bounds s h k 0
    have hb1 := lhs_unit_bounds s h k 1
    have e0 : domain_xt s k 0 = -1 + 2 * s k 0 := by
      show l_bounds 0 + (u_bounds 0 - l_bounds 0) * s k 0 = -1 + 2 * s k 0
      norm_num [l_bounds, u_bounds]
    have e1 : domain_xt s k 1 = 2 * s k 1 := by
      show l_bounds 1 + (u_bounds 1 - l_bounds 1) * s k 1 = 2 * s k 1
      norm_num [l_bounds, u_bounds]
    rw [e0, e1]
    refine ⟨⟨by linarith [hb0.1], by linarith [hb0.2]⟩,
      ⟨by linarith [hb1.1], by linarith [hb1.2]⟩⟩
  · intro dim j
    have hw : 0 < u_bounds dim - l_bounds dim := by
      fin_cases dim <;> norm_num [l_bounds, u_bounds]
    have base := lhs_unit_strata s h dim j
    have base' : ∃! k : Fin 100,
        ((j : ℕ) : ℚ) / 100 ≤ s k dim ∧ s k dim < (((j : ℕ) : ℚ) + 1) / 100 := by
      simpa using base
    simp only [domain_xt, qmc_scale]
    exact (existsUnique_congr fun k =>
      scaled_mem_iff (l_bounds dim) (u_bounds dim - l_bounds dim) hw 100
        ((j : ℕ) : ℚ) (s k dim)).mpr base'

/-- The stratum-midpoint sample: point `k` sits in the middle of stratum
`k` in both coordinates. -/
def sampleMid : Fin 100 → Fin 2 → ℚ := fun k _ => ((k : ℕ) : ℚ) / 100 + 1 / 200

/-- The midpoint sample satisfies the Latin Hypercube contract. -/
lemma sampleMid_isLH : isLatinHypercube 100 2 sampleMid := by
  intro dim
  refine ⟨Equiv.refl _, fun k => ?_⟩
  simp only [Equiv.refl_apply, sampleMid]
  constructor <;> linarith

/-- Witness for Claim C3 at the midpoint sample: the domain bounds and the
per-coordinate stratification hold for its scaled collocation points. -/
theorem lhs_collocation_points_witness :
    isLatinHypercube 100 2 sampleMid ∧
    ((∀ k : Fin 100,
        (-1 ≤ domain_xt sampleMid k 0 ∧ domain_xt sampleMid k 0 ≤ 1) ∧
          (0 ≤ domain_xt sampleMid k 1 ∧ domain_xt sampleMid k 1 ≤ 2))
    ∧ (∀ (dim : Fin 2) (j : Fin 100), ∃! k : Fin 100,
        l_bounds dim + (u_bounds dim - l_bounds dim) * ((j : ℕ) : ℚ) / 100 ≤
            domain_xt sampleMid k dim ∧
          domain_xt sampleMid k dim <
            l_bounds dim + (u_bounds dim - l_bounds dim) * (((j : ℕ) : ℚ) + 1) / 100)) :=
  ⟨sampleMid_isLH, lhs_collocation_points sampleMid sampleMid_isLH⟩

end PINNDiffusion
